import Mathlib

/-!
# Selection locator — a shallow embedding

This file embeds the selection-locator core of the repository
(`getSelectionPosition` in `open_in_web.ts`) into Lean and proves the
spec's testable properties about it.

The embedding models JavaScript strings as `List Char`:

* `normalizeNewlines` is `text.replace(/\r\n/g, "\n")`;
* `splitLines` is `text.split("\n")` (always at least one element);
* `strIndexOf hay needle` is `hay.indexOf(needle)` with `none` for `-1`;
* `strIncludes hay needle` is `hay.includes(needle)`;
* `matchesAt`, `findColumn`, `scanDown`/`scanUp` (the two directions of
  the source's `scan`), `foundIndex` (the search phase that assigns
  `matchStartLine`) and `resolveSpan` (the column-resolution phase with
  its `-1` guard) transcribe the body of `getSelectionPosition`;
* `locate` is `getSelectionPosition` with the file read replaced by a
  document-text parameter (the core is pure in its text inputs).
-/

namespace OpenInWeb

/-- `text.replace(/\r\n/g, "\n")`: every (left-to-right, non-overlapping)
`'\r', '\n'` pair becomes a single `'\n'`. -/
def normalizeNewlines : List Char → List Char
  | [] => []
  | [c] => [c]
  | c1 :: c2 :: rest =>
    if c1 = '\r' ∧ c2 = '\n' then '\n' :: normalizeNewlines rest
    else c1 :: normalizeNewlines (c2 :: rest)

/-- `text.split("\n")`: split into the (always nonempty) list of lines.
`"".split("\n")` is `[""]`, matching JavaScript. -/
def splitLines : List Char → List (List Char)
  | [] => [[]]
  | c :: rest =>
    if c = '\n' then [] :: splitLines rest
    else
      match splitLines rest with
      | [] => [[c]]
      | l :: ls => (c :: l) :: ls

/-- Normalize CRLF to LF, then split on LF — the line decomposition applied
to both the file content and the selection in `getSelectionPosition`. -/
def toLines (text : String) : List (List Char) :=
  splitLines (normalizeNewlines text.data)

/-- `hay.indexOf(needle)`: index of the first occurrence of `needle` as a
contiguous substring of `hay`; `none` models JavaScript's `-1`.
`hay.indexOf("")` is `0` for every `hay`, as in JavaScript. -/
def strIndexOf (hay needle : List Char) : Option Nat :=
  if needle.isPrefixOf hay then some 0
  else
    match hay with
    | [] => none
    | _ :: t => (strIndexOf t needle).map (· + 1)

/-- `hay.includes(needle)`: `needle` occurs as a contiguous substring of
`hay` (equivalently, `indexOf` does not return `-1`). -/
def strIncludes (hay needle : List Char) : Bool :=
  (strIndexOf hay needle).isSome

/-- The source's `matchesAt(lineIdx)`: the window
`[lineIdx, lineIdx + selLen)` lies within the document and every selection
line is a substring of the corresponding document line.  (The source's
`lineIdx < 0` test is vacuous here since `lineIdx : Nat`.) -/
def matchesAt (fileLines selectionLines : List (List Char)) (lineIdx : Nat) : Bool :=
  if lineIdx + selectionLines.length > fileLines.length then false
  else
    (List.range selectionLines.length).all fun i =>
      strIncludes (fileLines.getD (lineIdx + i) []) (selectionLines.getD i [])

/-- The source's `findColumn`: `indexOf` converted to a 1-based column,
with `-1` preserved as the failure value. -/
def findColumn (line target : List Char) : Int :=
  match strIndexOf line target with
  | none => -1
  | some col => (col : Int) + 1

/-- Loop body of the source's downward `scan`: test `m i` for
`i = startIdx, startIdx+1, …` over `count` iterations, first hit wins. -/
def scanDownAux (m : Nat → Bool) (startIdx : Nat) : Nat → Option Nat
  | 0 => none
  | count + 1 =>
    if m startIdx then some startIdx else scanDownAux m (startIdx + 1) count

/-- The source's `scan(startLineIndex, "down")`: test `matchesAt i` for
`i = startIdx, startIdx+1, …` while `i ≤ fileLines.length - selLen` (as
signed arithmetic, hence zero iterations when
`startIdx + selLen > fileLines.length`), first hit wins. -/
def scanDown (fileLines selectionLines : List (List Char)) (startIdx : Nat) : Option Nat :=
  if startIdx + selectionLines.length ≤ fileLines.length then
    scanDownAux (matchesAt fileLines selectionLines) startIdx
      (fileLines.length - selectionLines.length - startIdx + 1)
  else none

/-- Loop body of the source's upward `scan`: test `m i` for
`i = startIdx, startIdx-1, …, 0`, first hit wins. -/
def scanUpAux (m : Nat → Bool) : Nat → Option Nat
  | 0 => if m 0 then some 0 else none
  | s + 1 => if m (s + 1) then some (s + 1) else scanUpAux m s

/-- The source's `scan(startLineIndex, "up")`: test `matchesAt i` for
`i = startIdx, startIdx-1, …, 0`, first hit wins; an initially negative
index runs zero iterations. -/
def scanUp (fileLines selectionLines : List (List Char)) (startIdx : Int) : Option Nat :=
  if 0 ≤ startIdx then
    scanUpAux (matchesAt fileLines selectionLines) startIdx.toNat
  else none

/-- The search phase of `getSelectionPosition` (0-based index of the first
match under the search order): if a hint is present and in range
(`0 < hintLine ≤ fileLines.length`), scan down from `hintLine - 1`, then up
from `hintLine - 2`; if both fail, or the hint is absent or out of range,
fall back to a full scan from line 0. -/
def foundIndex (fileLines selectionLines : List (List Char)) (hintLine : Option Int) :
    Option Nat :=
  match hintLine with
  | some h =>
    if 0 < h ∧ h ≤ (fileLines.length : Int) then
      match scanDown fileLines selectionLines (h - 1).toNat with
      | some i => some i
      | none =>
        match scanUp fileLines selectionLines (h - 2) with
        | some i => some i
        | none => scanDown fileLines selectionLines 0
    else scanDown fileLines selectionLines 0
  | none => scanDown fileLines selectionLines 0

/-- The result record of `getSelectionPosition`; all four fields are
JavaScript numbers, modelled as `Int`. -/
structure MatchSpan where
  startLine : Int
  startColumn : Int
  endLine : Int
  endColumn : Int
deriving DecidableEq, Repr

/-- The column-resolution phase of `getSelectionPosition`: given the
matched 0-based start index, compute the 1-based span; if either
`findColumn` call returns `-1`, return `null` (the guarded
"Could not determine column" branch). -/
def resolveSpan (fileLines selectionLines : List (List Char)) (matchIdx : Nat) :
    Option MatchSpan :=
  if findColumn (fileLines.getD matchIdx []) (selectionLines.getD 0 []) = -1 ∨
      findColumn (fileLines.getD (matchIdx + selectionLines.length - 1) [])
        (selectionLines.getD (selectionLines.length - 1) []) = -1 then
    none
  else
    some
      { startLine := (matchIdx : Int) + 1
        startColumn := findColumn (fileLines.getD matchIdx []) (selectionLines.getD 0 [])
        endLine := ((matchIdx + selectionLines.length - 1 : Nat) : Int) + 1
        endColumn :=
          findColumn (fileLines.getD (matchIdx + selectionLines.length - 1) [])
              (selectionLines.getD (selectionLines.length - 1) []) +
            ((selectionLines.getD (selectionLines.length - 1) []).length : Int) - 1 }

/-- `getSelectionPosition` with the file read replaced by the document
text: normalize and split both texts, run the (optionally hinted) search,
and resolve the span of the first match, or return `null`. -/
def locate (documentText selectionText : String) (hintLine : Option Int) :
    Option MatchSpan :=
  match foundIndex (toLines documentText) (toLines selectionText) hintLine with
  | none => none
  | some i => resolveSpan (toLines documentText) (toLines selectionText) i

/-- The claim hypothesis "the selection appears verbatim as a contiguous
line block starting at 0-based index `i`": each selection line *equals*
the corresponding document line. -/
def verbatimAt (documentText selectionText : String) (i : Nat) : Bool :=
  decide (i + (toLines selectionText).length ≤ (toLines documentText).length) &&
    (List.range (toLines selectionText).length).all fun k =>
      (toLines documentText).getD (i + k) [] == (toLines selectionText).getD k []

/-! ## Basic facts about the embedding -/

theorem splitLines_ne_nil : ∀ l : List Char, splitLines l ≠ []
  | [] => by simp [splitLines]
  | c :: rest => by
    simp only [splitLines]
    split
    · simp
    · split <;> simp

theorem toLines_ne_nil (t : String) : toLines t ≠ [] :=
  splitLines_ne_nil _

theorem toLines_length_pos (t : String) : 0 < (toLines t).length :=
  List.length_pos.mpr (toLines_ne_nil t)

theorem matchesAt_bound {fl sl : List (List Char)} {i : Nat}
    (h : matchesAt fl sl i = true) : i + sl.length ≤ fl.length := by
  unfold matchesAt at h
  split at h
  · cases h
  · omega

theorem matchesAt_includes {fl sl : List (List Char)} {i : Nat}
    (h : matchesAt fl sl i = true) :
    ∀ k < sl.length, strIncludes (fl.getD (i + k) []) (sl.getD k []) = true := by
  unfold matchesAt at h
  split at h
  · cases h
  · intro k hk
    exact List.all_eq_true.mp h k (List.mem_range.mpr hk)

theorem findColumn_ge_one_of_includes {line target : List Char}
    (h : strIncludes line target = true) : 1 ≤ findColumn line target := by
  unfold strIncludes at h
  unfold findColumn
  match hi : strIndexOf line target with
  | none => rw [hi] at h; cases h
  | some c => simp only; omega

theorem matchesAt_first {fl sl : List (List Char)} {i : Nat} (hne : sl ≠ [])
    (h : matchesAt fl sl i = true) :
    strIncludes (fl.getD i []) (sl.getD 0 []) = true := by
  have := matchesAt_includes h 0 (List.length_pos.mpr hne)
  simpa using this

theorem matchesAt_last {fl sl : List (List Char)} {i : Nat} (hne : sl ≠ [])
    (h : matchesAt fl sl i = true) :
    strIncludes (fl.getD (i + sl.length - 1) []) (sl.getD (sl.length - 1) []) = true := by
  have hpos := List.length_pos.mpr hne
  have := matchesAt_includes h (sl.length - 1) (by omega)
  have harith : i + (sl.length - 1) = i + sl.length - 1 := by omega
  rwa [harith] at this

/-- Whenever the containment check succeeded at `matchIdx`, neither
`findColumn` call returns `-1` and `resolveSpan` builds the span exactly as
the source does. -/
theorem resolveSpan_of_matchesAt {fl sl : List (List Char)} {i : Nat} (hne : sl ≠ [])
    (h : matchesAt fl sl i = true) :
    resolveSpan fl sl i =
      some
        { startLine := (i : Int) + 1
          startColumn := findColumn (fl.getD i []) (sl.getD 0 [])
          endLine := ((i + sl.length - 1 : Nat) : Int) + 1
          endColumn :=
            findColumn (fl.getD (i + sl.length - 1) []) (sl.getD (sl.length - 1) []) +
              ((sl.getD (sl.length - 1) []).length : Int) - 1 } := by
  have h1 := findColumn_ge_one_of_includes (matchesAt_first hne h)
  have h2 := findColumn_ge_one_of_includes (matchesAt_last hne h)
  unfold resolveSpan
  rw [if_neg]
  omega

/-! ## Characterizing the scans -/

theorem scanDownAux_some {m : Nat → Bool} :
    ∀ {count s j : Nat}, scanDownAux m s count = some j →
      s ≤ j ∧ j < s + count ∧ m j = true ∧ ∀ k, s ≤ k → k < j → m k = false := by
  intro count
  induction count with
  | zero => intro s j h; cases h
  | succ n ih =>
    intro s j h
    unfold scanDownAux at h
    split at h
    · rename_i hms
      cases h
      exact ⟨Nat.le_refl _, by omega, hms, fun k h1 h2 => by omega⟩
    · rename_i hms
      obtain ⟨h1, h2, h3, h4⟩ := ih h
      refine ⟨by omega, by omega, h3, fun k hk1 hk2 => ?_⟩
      rcases Nat.eq_or_lt_of_le hk1 with he | hlt
      · subst he; simpa using hms
      · exact h4 k hlt hk2

theorem scanDownAux_complete {m : Nat → Bool} :
    ∀ {count s i : Nat}, s ≤ i → i < s + count → m i = true →
      ∃ j, scanDownAux m s count = some j ∧ j ≤ i := by
  intro count
  induction count with
  | zero => intro s i h1 h2; omega
  | succ n ih =>
    intro s i h1 h2 h3
    unfold scanDownAux
    split
    · exact ⟨s, rfl, h1⟩
    · rename_i hms
      have hsi : s + 1 ≤ i := by
        rcases Nat.eq_or_lt_of_le h1 with he | hlt
        · subst he; simp [h3] at hms
        · omega
      obtain ⟨j, hj, hji⟩ := ih hsi (by omega) h3
      exact ⟨j, hj, hji⟩

theorem scanUpAux_some {m : Nat → Bool} :
    ∀ {s j : Nat}, scanUpAux m s = some j →
      j ≤ s ∧ m j = true ∧ ∀ k, j < k → k ≤ s → m k = false := by
  intro s
  induction s with
  | zero =>
    intro j h
    unfold scanUpAux at h
    split at h
    · rename_i hm0
      cases h
      exact ⟨Nat.le_refl _, hm0, fun k h1 h2 => by omega⟩
    · cases h
  | succ n ih =>
    intro j h
    unfold scanUpAux at h
    split at h
    · rename_i hms
      cases h
      exact ⟨Nat.le_refl _, hms, fun k h1 h2 => by omega⟩
    · rename_i hms
      obtain ⟨h1, h2, h3⟩ := ih h
      refine ⟨by omega, h2, fun k hk1 hk2 => ?_⟩
      rcases Nat.eq_or_lt_of_le hk2 with he | hlt
      · subst he; simpa using hms
      · exact h3 k hk1 (by omega)

theorem scanUpAux_complete {m : Nat → Bool} :
    ∀ {s i : Nat}, i ≤ s → m i = true → ∃ j, scanUpAux m s = some j ∧ i ≤ j := by
  intro s
  induction s with
  | zero =>
    intro i h1 h2
    have : i = 0 := by omega
    subst this
    exact ⟨0, by unfold scanUpAux; rw [if_pos h2], Nat.le_refl _⟩
  | succ n ih =>
    intro i h1 h2
    unfold scanUpAux
    split
    · exact ⟨n + 1, rfl, h1⟩
    · rename_i hms
      have hin : i ≤ n := by
        rcases Nat.eq_or_lt_of_le h1 with he | hlt
        · subst he; simp [h2] at hms
        · omega
      obtain ⟨j, hj, hji⟩ := ih hin h2
      exact ⟨j, hj, hji⟩

theorem scanDown_some {fl sl : List (List Char)} {s j : Nat}
    (h : scanDown fl sl s = some j) :
    s ≤ j ∧ matchesAt fl sl j = true ∧
      ∀ k, s ≤ k → k < j → matchesAt fl sl k = false := by
  unfold scanDown at h
  split at h
  · obtain ⟨h1, _, h3, h4⟩ := scanDownAux_some h
    exact ⟨h1, h3, h4⟩
  · cases h

theorem scanDown_complete {fl sl : List (List Char)} {s i : Nat} (hsi : s ≤ i)
    (hm : matchesAt fl sl i = true) :
    ∃ j, scanDown fl sl s = some j ∧ j ≤ i := by
  have hb := matchesAt_bound hm
  unfold scanDown
  rw [if_pos (by omega)]
  exact scanDownAux_complete hsi (by omega) hm

theorem scanDown_eq_none {fl sl : List (List Char)} {s : Nat}
    (h : ∀ k, s ≤ k → matchesAt fl sl k = false) : scanDown fl sl s = none := by
  unfold scanDown
  split
  · match hs : scanDownAux (matchesAt fl sl) s (fl.length - sl.length - s + 1) with
    | none => rfl
    | some j =>
      obtain ⟨h1, _, h3, _⟩ := scanDownAux_some hs
      rw [h j h1] at h3
      cases h3
  · rfl

theorem scanUp_some {fl sl : List (List Char)} {s : Int} {j : Nat}
    (h : scanUp fl sl s = some j) :
    (j : Int) ≤ s ∧ matchesAt fl sl j = true ∧
      ∀ k : Nat, j < k → (k : Int) ≤ s → matchesAt fl sl k = false := by
  unfold scanUp at h
  split at h
  · rename_i hs
    obtain ⟨h1, h2, h3⟩ := scanUpAux_some h
    refine ⟨?_, h2, fun k hk1 hk2 => h3 k hk1 ?_⟩
    · omega
    · omega
  · cases h

theorem scanUp_complete {fl sl : List (List Char)} {s : Int} {i : Nat}
    (his : (i : Int) ≤ s) (hm : matchesAt fl sl i = true) :
    ∃ j, scanUp fl sl s = some j ∧ i ≤ j := by
  unfold scanUp
  rw [if_pos (by omega)]
  exact scanUpAux_complete (by omega) hm

theorem scanUp_eq_none {fl sl : List (List Char)} {s : Int}
    (h : ∀ k : Nat, (k : Int) ≤ s → matchesAt fl sl k = false) : scanUp fl sl s = none := by
  unfold scanUp
  split
  · rename_i hs
    match hu : scanUpAux (matchesAt fl sl) s.toNat with
    | none => rfl
    | some j =>
      obtain ⟨h1, h2, _⟩ := scanUpAux_some hu
      rw [h j (by omega)] at h2
      cases h2
  · rfl

/-! ## The search phase -/

/-- Every index delivered by the search phase really matches: each of the
three scans only returns indices satisfying `matchesAt`. -/
theorem foundIndex_some_matchesAt {fl sl : List (List Char)} {h : Option Int} {i : Nat}
    (hf : foundIndex fl sl h = some i) : matchesAt fl sl i = true := by
  cases h with
  | none =>
    simp only [foundIndex] at hf
    exact (scanDown_some hf).2.1
  | some v =>
    simp only [foundIndex] at hf
    split at hf
    · match hd : scanDown fl sl (v - 1).toNat with
      | some k =>
        rw [hd] at hf
        cases hf
        exact (scanDown_some hd).2.1
      | none =>
        rw [hd] at hf
        match hu : scanUp fl sl (v - 2) with
        | some k =>
          rw [hu] at hf
          cases hf
          exact (scanUp_some hu).2.1
        | none =>
          rw [hu] at hf
          exact (scanDown_some hf).2.1
    · exact (scanDown_some hf).2.1

/-- When the selection matches at exactly one index `p`, every hint —
absent, in range, or out of range — makes the search phase return `p`. -/
theorem foundIndex_of_unique {fl sl : List (List Char)} {p : Nat}
    (hp : matchesAt fl sl p = true)
    (hu : ∀ j, matchesAt fl sl j = true → j = p) :
    ∀ h : Option Int, foundIndex fl sl h = some p := by
  have hDown : ∀ s : Nat, s ≤ p → scanDown fl sl s = some p := by
    intro s hs
    obtain ⟨j, hj, _⟩ := scanDown_complete hs hp
    have hjp := hu j (scanDown_some hj).2.1
    rwa [hjp] at hj
  have hDownNone : ∀ s : Nat, p < s → scanDown fl sl s = none := by
    intro s hs
    apply scanDown_eq_none
    intro k hk
    by_cases hmk : matchesAt fl sl k = true
    · have := hu k hmk; omega
    · simpa using hmk
  have hUp : ∀ s : Int, (p : Int) ≤ s → scanUp fl sl s = some p := by
    intro s hs
    obtain ⟨j, hj, _⟩ := scanUp_complete hs hp
    have hjp := hu j (scanUp_some hj).2.1
    rwa [hjp] at hj
  intro h
  cases h with
  | none => exact hDown 0 (Nat.zero_le p)
  | some v =>
    simp only [foundIndex]
    split
    · rename_i hc
      by_cases hzp : (v - 1).toNat ≤ p
      · rw [hDown _ hzp]
      · push_neg at hzp
        rw [hDownNone _ hzp]
        have hv1 : ((v - 1).toNat : Int) = v - 1 := Int.toNat_of_nonneg (by omega)
        rw [hUp (v - 2) (by omega)]
    · exact hDown 0 (Nat.zero_le p)

/-- With no hint, the search phase returns the first matching index of the
full forward scan, which is at most any given matching index. -/
theorem foundIndex_none_first {fl sl : List (List Char)} {i : Nat}
    (hm : matchesAt fl sl i = true) :
    ∃ j, foundIndex fl sl none = some j ∧ j ≤ i ∧ matchesAt fl sl j = true ∧
      ∀ k, k < j → matchesAt fl sl k = false := by
  obtain ⟨j, hj, hji⟩ := scanDown_complete (Nat.zero_le i) hm
  obtain ⟨-, hmj, hmin⟩ := scanDown_some hj
  exact ⟨j, hj, hji, hmj, fun k hk => hmin k (Nat.zero_le k) hk⟩

/-- The search phase never finds anything when nothing matches. -/
theorem foundIndex_eq_none {fl sl : List (List Char)}
    (h : ∀ k, matchesAt fl sl k = false) :
    ∀ hint : Option Int, foundIndex fl sl hint = none := by
  have hd : ∀ s : Nat, scanDown fl sl s = none := fun s =>
    scanDown_eq_none fun k _ => h k
  have hup : ∀ s : Int, scanUp fl sl s = none := fun s =>
    scanUp_eq_none fun k _ => h k
  intro hint
  cases hint with
  | none => exact hd 0
  | some v =>
    simp only [foundIndex]
    split
    · rw [hd ((v - 1).toNat), hup (v - 2)]
      exact hd 0
    · exact hd 0

/-- `locate` is the span resolution of whatever index the search phase
found. -/
theorem locate_eq_resolveSpan {D S : String} {hint : Option Int} {i : Nat}
    (hf : foundIndex (toLines D) (toLines S) hint = some i) :
    locate D S hint = resolveSpan (toLines D) (toLines S) i := by
  unfold locate
  rw [hf]

theorem isPrefixOf_refl (l : List Char) : l.isPrefixOf l = true := by
  induction l with
  | nil => rfl
  | cons c t ih => simp [List.isPrefixOf, ih]

theorem strIncludes_refl (l : List Char) : strIncludes l l = true := by
  unfold strIncludes strIndexOf
  rw [if_pos (isPrefixOf_refl l)]
  rfl

/-- A verbatim line block (each selection line equal to its document line)
is in particular a substring match at the same index. -/
theorem matchesAt_of_verbatim {D S : String} {i : Nat} (h : verbatimAt D S i = true) :
    matchesAt (toLines D) (toLines S) i = true := by
  unfold verbatimAt at h
  rw [Bool.and_eq_true] at h
  obtain ⟨h1, h2⟩ := h
  have hb : i + (toLines S).length ≤ (toLines D).length := of_decide_eq_true h1
  unfold matchesAt
  rw [if_neg (by omega)]
  rw [List.all_eq_true]
  intro k hk
  have he := List.all_eq_true.mp h2 k hk
  have heq : (toLines D).getD (i + k) [] = (toLines S).getD k [] := eq_of_beq he
  rw [heq]
  exact strIncludes_refl _

example : toLines "ax\nx" = [['a', 'x'], ['x']] := by decide
example : locate "ax\nx" "x" none = some ⟨1, 2, 1, 2⟩ := by decide
example : locate "a" "" none = some ⟨1, 1, 1, 0⟩ := by decide
example :
    locate "function f() \x7b\n  return 1;\n\x7d" "return 1;" none =
      some ⟨2, 3, 2, 11⟩ := by decide
example : locate "  const x = 1; // comment" "const x = 1;" none =
    some ⟨1, 3, 1, 14⟩ := by decide
example : locate "x\ny\nx" "x" (some 3) = some ⟨3, 1, 3, 1⟩ := by decide
example : locate "x\ny\ny" "x" (some 3) = some ⟨1, 1, 1, 1⟩ := by decide
example : locate "a\nb" "zz" (some 7) = none := by decide
example : toLines "a\r\nb" = [['a'], ['b']] := by decide

theorem nil_isPrefixOf (l : List Char) : List.isPrefixOf [] l = true := by
  cases l <;> rfl

theorem strIncludes_nil (l : List Char) : strIncludes l [] = true := by
  unfold strIncludes strIndexOf
  rw [if_pos (nil_isPrefixOf l)]
  rfl

theorem findColumn_nil (l : List Char) : findColumn l [] = 1 := by
  unfold findColumn strIndexOf
  rw [if_pos (nil_isPrefixOf l)]
  rfl

theorem matchesAt_eq_false_of_bound {fl sl : List (List Char)} {j : Nat}
    (h : fl.length < j + sl.length) : matchesAt fl sl j = false := by
  unfold matchesAt
  rw [if_pos (by omega)]

/-- A down scan started exactly at a matching index stops there at once. -/
theorem scanDown_self {fl sl : List (List Char)} {s : Nat}
    (h : matchesAt fl sl s = true) : scanDown fl sl s = some s := by
  have hb := matchesAt_bound h
  unfold scanDown
  rw [if_pos hb]
  show scanDownAux (matchesAt fl sl) s (fl.length - sl.length - s + 1) = some s
  simp only [scanDownAux]
  rw [if_pos h]

/-- A hint naming a matching line makes the hinted forward scan take that
line immediately. -/
theorem foundIndex_hint_self {fl sl : List (List Char)} {p : Nat} (hne : sl ≠ [])
    (hp : matchesAt fl sl p = true) :
    foundIndex fl sl (some ((p : Int) + 1)) = some p := by
  have hb := matchesAt_bound hp
  have hpos := List.length_pos.mpr hne
  simp only [foundIndex]
  rw [if_pos ⟨by omega, by omega⟩]
  have ht : (((p : Int) + 1) - 1).toNat = p := by omega
  rw [ht, scanDown_self hp]

/-! ## The claims -/

/-- C1, as stated, is false: the whole-file forward scan accepts *substring*
matches, so a substring occurrence before the verbatim block wins.  In
`"ax\nx"` the selection `"x"` appears verbatim at 0-based index 1, yet
`locate` with no hint returns `startLine = 1` (the substring match inside
`"ax"`), not `2`. -/
theorem C1_counterexample :
    verbatimAt "ax\nx" "x" 1 = true ∧
      (locate "ax\nx" "x" none).map MatchSpan.startLine ≠ some 2 := by decide

/-- C1 (amended): if the selection appears verbatim as a contiguous line
block at 0-based index `i`, `locate` with no hint returns a span whose
`startLine` is `j + 1` for the *first* 0-based index `j` with a valid
(substring) alignment; this `j` is at most `i` (and equals `i` whenever no
alignment exists earlier). -/
theorem C1_no_hint_first_alignment (D S : String) (i : Nat)
    (h : verbatimAt D S i = true) :
    ∃ j sp, j ≤ i ∧ matchesAt (toLines D) (toLines S) j = true ∧
      (∀ k, k < j → matchesAt (toLines D) (toLines S) k = false) ∧
      locate D S none = some sp ∧ sp.startLine = (j : Int) + 1 := by
  have hm := matchesAt_of_verbatim h
  obtain ⟨j, hj, hji, hmj, hmin⟩ := foundIndex_none_first hm
  refine ⟨j, _, hji, hmj, hmin,
    by rw [locate_eq_resolveSpan hj, resolveSpan_of_matchesAt (toLines_ne_nil S) hmj], rfl⟩

/-- C1 witness: the amended theorem applied to `"a\nb"` / `"b"`, which
appears verbatim at index 1 and has no earlier alignment. -/
theorem C1_witness :
    verbatimAt "a\nb" "b" 1 = true ∧
      ∃ j sp, j ≤ 1 ∧ matchesAt (toLines "a\nb") (toLines "b") j = true ∧
        (∀ k, k < j → matchesAt (toLines "a\nb") (toLines "b") k = false) ∧
        locate "a\nb" "b" none = some sp ∧ sp.startLine = (j : Int) + 1 :=
  ⟨by decide, C1_no_hint_first_alignment "a\nb" "b" 1 (by decide)⟩

/-- C2, as stated, is false: when the last selection line is the empty
string, `endColumn = indexOf("") + 1 + 0 - 1 = 0`, which is not a positive
integer.  `locate "a" "" none` returns the span `⟨1, 1, 1, 0⟩`. -/
theorem C2_counterexample :
    ¬ ∀ sp : MatchSpan, locate "a" "" none = some sp → 1 ≤ sp.endColumn := by
  intro h
  have h0 := h ⟨1, 1, 1, 0⟩ (by decide)
  exact absurd h0 (by decide)

/-- C2 (amended): whenever `locate` returns a span, `startLine`,
`startColumn` and `endLine` are all at least 1, and `endColumn` is at least
0 — and at least 1 whenever the last selection line is nonempty. -/
theorem C2_span_positive (D S : String) (hint : Option Int) (sp : MatchSpan)
    (hl : locate D S hint = some sp) :
    1 ≤ sp.startLine ∧ 1 ≤ sp.startColumn ∧ 1 ≤ sp.endLine ∧ 0 ≤ sp.endColumn ∧
      ((toLines S).getD ((toLines S).length - 1) [] ≠ [] → 1 ≤ sp.endColumn) := by
  unfold locate at hl
  match hf : foundIndex (toLines D) (toLines S) hint with
  | none => rw [hf] at hl; cases hl
  | some i =>
    rw [hf] at hl
    simp only at hl
    have hm := foundIndex_some_matchesAt hf
    have hne := toLines_ne_nil S
    rw [resolveSpan_of_matchesAt hne hm] at hl
    cases hl
    have h1 := findColumn_ge_one_of_includes (matchesAt_first hne hm)
    have h2 := findColumn_ge_one_of_includes (matchesAt_last hne hm)
    refine ⟨?_, h1, ?_, ?_, ?_⟩
    · show (1 : Int) ≤ (i : Int) + 1
      omega
    · show (1 : Int) ≤ ((i + (toLines S).length - 1 : Nat) : Int) + 1
      omega
    · show (0 : Int) ≤
        findColumn ((toLines D).getD (i + (toLines S).length - 1) [])
            ((toLines S).getD ((toLines S).length - 1) []) +
          (((toLines S).getD ((toLines S).length - 1) []).length : Int) - 1
      omega
    · intro hlast
      have hlen := List.length_pos.mpr hlast
      show (1 : Int) ≤
        findColumn ((toLines D).getD (i + (toLines S).length - 1) [])
            ((toLines S).getD ((toLines S).length - 1) []) +
          (((toLines S).getD ((toLines S).length - 1) []).length : Int) - 1
      omega

/-- C2 witness: the amended theorem applied to `"ab"` / `"b"`. -/
theorem C2_witness :
    locate "ab" "b" none = some ⟨1, 2, 1, 2⟩ ∧
      (1 ≤ (⟨1, 2, 1, 2⟩ : MatchSpan).startLine ∧
        1 ≤ (⟨1, 2, 1, 2⟩ : MatchSpan).startColumn ∧
        1 ≤ (⟨1, 2, 1, 2⟩ : MatchSpan).endLine ∧
        0 ≤ (⟨1, 2, 1, 2⟩ : MatchSpan).endColumn ∧
        ((toLines "b").getD ((toLines "b").length - 1) [] ≠ [] →
          1 ≤ (⟨1, 2, 1, 2⟩ : MatchSpan).endColumn)) :=
  ⟨by decide, C2_span_positive "ab" "b" none ⟨1, 2, 1, 2⟩ (by decide)⟩

/-- C3: on every successful match at 0-based index `i`, the span is
`startLine = i + 1`, `endLine = i + selLen`, `startColumn` the 1-based
index of the first occurrence of the first selection line within document
line `i`, and `endColumn` that of the last selection line within the last
matched line plus its length minus 1. -/
theorem C3_span_formulas (D S : String) (hint : Option Int) (i : Nat) (sp : MatchSpan)
    (hf : foundIndex (toLines D) (toLines S) hint = some i)
    (hl : locate D S hint = some sp) :
    sp.startLine = (i : Int) + 1 ∧
      sp.endLine = (i : Int) + ((toLines S).length : Int) ∧
      sp.startColumn = findColumn ((toLines D).getD i []) ((toLines S).getD 0 []) ∧
      sp.endColumn =
        findColumn ((toLines D).getD (i + (toLines S).length - 1) [])
            ((toLines S).getD ((toLines S).length - 1) []) +
          (((toLines S).getD ((toLines S).length - 1) []).length : Int) - 1 := by
  have hm := foundIndex_some_matchesAt hf
  have hne := toLines_ne_nil S
  have hpos := List.length_pos.mpr hne
  rw [locate_eq_resolveSpan hf, resolveSpan_of_matchesAt hne hm] at hl
  cases hl
  refine ⟨rfl, ?_, rfl, rfl⟩
  show ((i + (toLines S).length - 1 : Nat) : Int) + 1 = (i : Int) + ((toLines S).length : Int)
  omega

/-- C3 witness: selection `"const x = 1;"` in document
`"  const x = 1; // comment"` is matched at index 0 with
`startColumn = 3` and `endColumn = 14`. -/
theorem C3_witness :
    foundIndex (toLines "  const x = 1; // comment") (toLines "const x = 1;") none =
        some 0 ∧
      locate "  const x = 1; // comment" "const x = 1;" none = some ⟨1, 3, 1, 14⟩ ∧
      ((⟨1, 3, 1, 14⟩ : MatchSpan).startLine = ((0 : Nat) : Int) + 1 ∧
        (⟨1, 3, 1, 14⟩ : MatchSpan).endLine =
          ((0 : Nat) : Int) + ((toLines "const x = 1;").length : Int) ∧
        (⟨1, 3, 1, 14⟩ : MatchSpan).startColumn =
          findColumn ((toLines "  const x = 1; // comment").getD 0 [])
            ((toLines "const x = 1;").getD 0 []) ∧
        (⟨1, 3, 1, 14⟩ : MatchSpan).endColumn =
          findColumn
              ((toLines "  const x = 1; // comment").getD
                (0 + (toLines "const x = 1;").length - 1) [])
              ((toLines "const x = 1;").getD ((toLines "const x = 1;").length - 1) []) +
            (((toLines "const x = 1;").getD
                  ((toLines "const x = 1;").length - 1) []).length : Int) - 1) :=
  ⟨by decide, by decide,
    C3_span_formulas "  const x = 1; // comment" "const x = 1;" none 0 ⟨1, 3, 1, 14⟩
      (by decide) (by decide)⟩

/-- C4: if the selection matches at exactly the two 0-based positions
`p1 < p2`, a hint of `p1 + 1` yields `startLine = p1 + 1` and a hint of
`p2 + 1` yields `startLine = p2 + 1`: the hinted forward scan takes the
match at the hint line first. -/
theorem C4_hint_tiebreak (D S : String) (p1 p2 : Nat)
    (h1 : matchesAt (toLines D) (toLines S) p1 = true)
    (h2 : matchesAt (toLines D) (toLines S) p2 = true)
    (hlt : p1 < p2)
    (huniq : ∀ j, matchesAt (toLines D) (toLines S) j = true → j = p1 ∨ j = p2) :
    (locate D S (some ((p1 : Int) + 1))).map MatchSpan.startLine = some ((p1 : Int) + 1) ∧
      (locate D S (some ((p2 : Int) + 1))).map MatchSpan.startLine =
        some ((p2 : Int) + 1) := by
  have hne := toLines_ne_nil S
  constructor
  · rw [locate_eq_resolveSpan (foundIndex_hint_self hne h1),
      resolveSpan_of_matchesAt hne h1]
    rfl
  · rw [locate_eq_resolveSpan (foundIndex_hint_self hne h2),
      resolveSpan_of_matchesAt hne h2]
    rfl

/-- C4 witness: `"x\ny\nx"` matches `"x"` exactly at indices 0 and 2;
hint 1 finds line 1 and hint 3 finds line 3. -/
theorem C4_witness :
    (locate "x\ny\nx" "x" (some (((0 : Nat) : Int) + 1))).map MatchSpan.startLine =
        some (((0 : Nat) : Int) + 1) ∧
      (locate "x\ny\nx" "x" (some (((2 : Nat) : Int) + 1))).map MatchSpan.startLine =
        some (((2 : Nat) : Int) + 1) :=
  C4_hint_tiebreak "x\ny\nx" "x" 0 2 (by decide) (by decide) (by decide)
    (fun j hj => by
      have hb := matchesAt_bound hj
      have e1 : (toLines "x").length = 1 := by decide
      have e2 : (toLines "x\ny\nx").length = 3 := by decide
      rw [e1, e2] at hb
      have hj2 : j ≤ 2 := by omega
      interval_cases j
      · exact Or.inl rfl
      · exact absurd hj (by decide)
      · exact Or.inr rfl)

/-- C5: if the selection matches only at 0-based position `p`, a hint of
`p + 3` (past the match) still resolves to `startLine = p + 1` — the
backward scan finds it when the hint is in range, the fallback full scan
when it is not. -/
theorem C5_backward_recovery (D S : String) (p : Nat)
    (hp : matchesAt (toLines D) (toLines S) p = true)
    (huniq : ∀ j, matchesAt (toLines D) (toLines S) j = true → j = p) :
    (locate D S (some ((p : Int) + 3))).map MatchSpan.startLine = some ((p : Int) + 1) := by
  have hne := toLines_ne_nil S
  rw [locate_eq_resolveSpan (foundIndex_of_unique hp huniq (some ((p : Int) + 3))),
    resolveSpan_of_matchesAt hne hp]
  rfl

/-- C5 witness: `"b"` matches `"a\nb\nc\nd\ne"` only at index 1; hint 4
still yields line 2. -/
theorem C5_witness :
    (locate "a\nb\nc\nd\ne" "b" (some (((1 : Nat) : Int) + 3))).map MatchSpan.startLine =
      some (((1 : Nat) : Int) + 1) :=
  C5_backward_recovery "a\nb\nc\nd\ne" "b" 1 (by decide)
    (fun j hj => by
      have hb := matchesAt_bound hj
      have e1 : (toLines "b").length = 1 := by decide
      have e2 : (toLines "a\nb\nc\nd\ne").length = 5 := by decide
      rw [e1, e2] at hb
      have hj4 : j ≤ 4 := by omega
      interval_cases j
      · exact absurd hj (by decide)
      · rfl
      · exact absurd hj (by decide)
      · exact absurd hj (by decide)
      · exact absurd hj (by decide))

/-- C6: when the selection matches at exactly one position, the result of
`locate` is the same for every hint — absent, in range, or out of range. -/
theorem C6_hint_convergence (D S : String) (p : Nat)
    (hp : matchesAt (toLines D) (toLines S) p = true)
    (huniq : ∀ j, matchesAt (toLines D) (toLines S) j = true → j = p)
    (hint : Option Int) :
    locate D S hint = locate D S none := by
  unfold locate
  rw [foundIndex_of_unique hp huniq hint, foundIndex_of_unique hp huniq none]

/-- C6 witness: `"b"` matches `"a\nb"` only at index 1; the negative hint
`-5` gives the same result as no hint. -/
theorem C6_witness : locate "a\nb" "b" (some (-5)) = locate "a\nb" "b" none :=
  C6_hint_convergence "a\nb" "b" 1 (by decide)
    (fun j hj => by
      have hb := matchesAt_bound hj
      have e1 : (toLines "b").length = 1 := by decide
      have e2 : (toLines "a\nb").length = 2 := by decide
      rw [e1, e2] at hb
      have hj1 : j ≤ 1 := by omega
      interval_cases j
      · exact absurd hj (by decide)
      · rfl)
    (some (-5))

/-- C7: an out-of-range hint (`< 1` or greater than the number of document
lines) is ignored: `locate` returns exactly what it returns with no hint. -/
theorem C7_invalid_hint_ignored (D S : String) (v : Int)
    (hv : v < 1 ∨ ((toLines D).length : Int) < v) :
    locate D S (some v) = locate D S none := by
  unfold locate
  simp only [foundIndex]
  rw [if_neg (by omega)]

/-- C7 witness: hint 99 on a one-line document behaves like no hint. -/
theorem C7_witness : locate "a" "a" (some 99) = locate "a" "a" none :=
  C7_invalid_hint_ignored "a" "a" 99 (by decide)

/-- C8: when no alignment of the selection exists anywhere in the
document, `locate` returns the not-found value `none` for every hint —
absent, in range, or out of range. -/
theorem C8_absent_not_found (D S : String)
    (habs : ∀ j, matchesAt (toLines D) (toLines S) j = false) (hint : Option Int) :
    locate D S hint = none := by
  unfold locate
  rw [foundIndex_eq_none habs hint]

/-- C8 witness: `"zz"` occurs nowhere in `"a\nb"`; the out-of-range hint 7
still yields `none`. -/
theorem C8_witness : locate "a\nb" "zz" (some 7) = none :=
  C8_absent_not_found "a\nb" "zz"
    (fun j => by
      by_cases hb : (toLines "a\nb").length < j + (toLines "zz").length
      · exact matchesAt_eq_false_of_bound hb
      · push_neg at hb
        have e1 : (toLines "zz").length = 1 := by decide
        have e2 : (toLines "a\nb").length = 2 := by decide
        rw [e1, e2] at hb
        have hj1 : j ≤ 1 := by omega
        interval_cases j
        · decide
        · decide)
    (some 7)

/-- C9: under the precondition that the containment check succeeded (the
search phase returned an index), the column-resolution guard is
unreachable: `locate` always returns a span, never the guarded `none`. -/
theorem C9_guard_unreachable (D S : String) (hint : Option Int) (i : Nat)
    (hf : foundIndex (toLines D) (toLines S) hint = some i) :
    ∃ sp, locate D S hint = some sp := by
  have hm := foundIndex_some_matchesAt hf
  exact ⟨_,
    by rw [locate_eq_resolveSpan hf, resolveSpan_of_matchesAt (toLines_ne_nil S) hm]⟩

/-- C9 witness: the empty-string selection line — the pathological case
the guard worries about — still resolves to a span. -/
theorem C9_witness :
    foundIndex (toLines "a") (toLines "") none = some 0 ∧
      ∃ sp, locate "a" "" none = some sp :=
  ⟨by decide, C9_guard_unreachable "a" "" none 0 (by decide)⟩

/-- C10: the empty selection text normalizes to the single empty line, so
for every document it matches at line 1 with `startColumn = 1` (the empty
string occurs at index 0) and `endColumn = 1 + 0 - 1 = 0`. -/
theorem C10_empty_selection (D : String) : locate D "" none = some ⟨1, 1, 1, 0⟩ := by
  have hsel : toLines "" = [[]] := rfl
  have hm : matchesAt (toLines D) (toLines "") 0 = true := by
    unfold matchesAt
    rw [if_neg (by
      have := toLines_length_pos D
      rw [hsel]
      simp only [List.length_singleton]
      omega)]
    rw [List.all_eq_true]
    intro k hk
    rw [hsel] at hk
    have hk0 : k = 0 := by simpa using List.mem_range.mp hk
    subst hk0
    rw [hsel]
    exact strIncludes_nil _
  have hf : foundIndex (toLines D) (toLines "") none = some 0 := by
    simp only [foundIndex]
    exact scanDown_self hm
  rw [locate_eq_resolveSpan hf, resolveSpan_of_matchesAt (toLines_ne_nil "") hm, hsel]
  simp [findColumn_nil]

end OpenInWeb
